import Mathlib

/-!
Verification of the geometry / DRC-feedback engine of the Easy EDA PCB Beautify
plugin (`src/lib/beautify.ts`, `src/lib/widthTransition.ts`, `src/lib/math.ts`,
`src/lib/drc.ts`).

The TypeScript source computes over IEEE doubles; the shallow embedding below
computes over `ℚ`.  Transcendental kernels are embedded as follows:

* `Math.sqrt` appears in the source only through `dist` and vector magnitudes.
  It is modelled by an explicit square-root function (`ratSqrt`, exact on
  perfect squares — every magnitude occurring in the concrete scenarios is one),
  and all universally-quantified theorems are stated for an arbitrary
  square-root oracle `sq : ℚ → ℚ`, so they do not depend on the model.
* `Math.tan(Math.acos x / 2)` is embedded through the half-angle identity
  `tan (acos x / 2) = sqrt (1 - x²) / (1 + x)` (`tanHalfAcos`).  At `x = -1`
  (a collinear corner) the source computes `Math.tan(π/2)`, an astronomically
  large double that drives `d = radius / tanVal` below every acceptance
  threshold; the embedding returns `0` for the guarded quantity there (the
  branch taken and the emitted operations coincide).
* `Math.atan2` (degrees) is likewise a parameter `at2 : ℚ → ℚ → ℚ` of the
  embedding; the concrete instantiation `atan2DegAx` is exact on the axis
  directions, which are the only directions the concrete scenarios evaluate.

JavaScript `Map` / `Set` values are modelled extensionally (functions
`ℕ → Option ℚ` / `ℕ → Bool`) where only `get` / `set` / `has` / `add` are used.
-/

namespace EasyEDA

/-- Plane point (interface `Point` of `math.ts`). -/
structure Point where
  x : ℚ
  y : ℚ
deriving DecidableEq

/-- Linear interpolation between two points (`lerp` of `math.ts`). -/
def lerp (p1 p2 : Point) (t : ℚ) : Point :=
  ⟨p1.x + (p2.x - p1.x) * t, p1.y + (p2.y - p1.y) * t⟩

/-- Fuel-driven integer square root (auxiliary for `ratSqrt`). -/
def isqrtAux : ℕ → ℕ → ℕ
  | 0, _ => 0
  | fuel + 1, n =>
    if n < 2 then n
    else
      let r := 2 * isqrtAux fuel (n / 4)
      if n < (r + 1) * (r + 1) then r else r + 1

/-- Integer square root, exact on perfect squares. -/
def isqrt (n : ℕ) : ℕ := isqrtAux n n

/-- Square root on `ℚ`, exact on quotients of perfect squares; models
`Math.sqrt` on every radicand occurring in the concrete scenarios. -/
def ratSqrt (q : ℚ) : ℚ := (isqrt q.num.natAbs : ℚ) / (isqrt q.den : ℚ)

/-- Distance between two points (`dist` of `math.ts`), for a square-root
oracle `sq`. -/
def distQ (sq : ℚ → ℚ) (p1 p2 : Point) : ℚ :=
  sq ((p1.x - p2.x) ^ 2 + (p1.y - p2.y) ^ 2)

/-- Quintic easing (`smootherStep` of `math.ts`). -/
def smootherStep (t : ℚ) : ℚ := t * t * t * (t * (t * 6 - 15) + 10)

/-- Intersection of the two lines through `p1,p2` and `p3,p4`
(`getLineIntersection` of `math.ts`); `none` for (near-)parallel lines. -/
def getLineIntersection (p1 p2 p3 p4 : Point) : Option Point :=
  let d := (p1.x - p2.x) * (p3.y - p4.y) - (p1.y - p2.y) * (p3.x - p4.x)
  if |d| < 1 / 1000000 then none
  else
    let t := ((p1.x - p3.x) * (p3.y - p4.y) - (p1.y - p3.y) * (p3.x - p4.x)) / d
    some ⟨p1.x + t * (p2.x - p1.x), p1.y + t * (p2.y - p1.y)⟩

/-- Normalization of an angle difference into `(-180, 180]`.  The source
(`getAngleBetween` of `math.ts`) does this with the two loops
`while (angle <= -180) angle += 360; while (angle > 180) angle -= 360;`,
which compute exactly the unique representative of the angle modulo 360
lying in `(-180, 180]`; the closed form below returns that representative. -/
def normAngle (a : ℚ) : ℚ := a - 360 * ⌈(a - 180) / 360⌉

/-- Angle of the vector `p1 → p2` in degrees (`getAngle` of `math.ts`),
for an `atan2`-in-degrees oracle `at2 y x`. -/
def getAngle (at2 : ℚ → ℚ → ℚ) (p1 p2 : Point) : ℚ :=
  at2 (p2.y - p1.y) (p2.x - p1.x)

/-- Signed angle from `v1` to `v2` in degrees (`getAngleBetween` of
`math.ts`). -/
def getAngleBetween (at2 : ℚ → ℚ → ℚ) (v1 v2 : Point) : ℚ :=
  normAngle (getAngle at2 ⟨0, 0⟩ v2 - getAngle at2 ⟨0, 0⟩ v1)

/-- Degrees form of `Math.atan2`, exact on the four axis directions (the only
directions the concrete scenarios evaluate it on; `Math.atan2(0,0) = 0`).
Other directions have irrational angles; no theorem depends on the value
returned for them (the general theorems quantify over the oracle). -/
def atan2DegAx (y x : ℚ) : ℚ :=
  if y = 0 then (if 0 ≤ x then 0 else 180)
  else if x = 0 then (if 0 < y then 90 else -90)
  else 0

/-- Value of `Math.tan(Math.acos x / 2)` through the half-angle identity
`sqrt (1 - x²) / (1 + x)`.  At `x ≤ -1` the source value is the huge double
`Math.tan(π/2)`, for which `d = radius / tanVal` underflows every acceptance
threshold; returning `0` takes the same branch (the `|tanVal| > 0.0001`
guard then sets `d = 0`, exactly the near-180° guard described in the spec). -/
def tanHalfAcos (sq : ℚ → ℚ) (x : ℚ) : ℚ :=
  if x ≤ -1 then 0 else sq (1 - x ^ 2) / (1 + x)

theorem normAngle_gt (a : ℚ) : -180 < normAngle a := by
  unfold normAngle
  have h : (⌈(a - 180) / 360⌉ : ℚ) < (a - 180) / 360 + 1 := Int.ceil_lt_add_one _
  nlinarith

theorem normAngle_le (a : ℚ) : normAngle a ≤ 180 := by
  unfold normAngle
  have h : (a - 180) / 360 ≤ (⌈(a - 180) / 360⌉ : ℚ) := Int.le_ceil _
  nlinarith

theorem getAngleBetween_gt (at2 : ℚ → ℚ → ℚ) (v1 v2 : Point) :
    -180 < getAngleBetween at2 v1 v2 := normAngle_gt _

theorem getAngleBetween_le (at2 : ℚ → ℚ → ℚ) (v1 v2 : Point) :
    getAngleBetween at2 v1 v2 ≤ 180 := normAngle_le _

/-- Monotonicity of the quintic easing on `[0, 1]`. -/
theorem smootherStep_mono {a b : ℚ} (ha : 0 ≤ a) (hab : a ≤ b) (hb : b ≤ 1) :
    smootherStep a ≤ smootherStep b := by
  unfold smootherStep
  have h3 : (0:ℚ) ≤ b - a := by linarith
  have h4 : (0:ℚ) ≤ 1 - (b - a) := by linarith
  nlinarith [mul_nonneg h3 (sq_nonneg (a * (1 - a) + b * (1 - b))),
    mul_nonneg (mul_nonneg (mul_nonneg h3 (mul_nonneg h3 h3)) h4)
      (by linarith : (0:ℚ) ≤ 1 + (b - a)),
    mul_nonneg h3 (mul_nonneg h3 h3)]

/-- Strict monotonicity of the quintic easing on `[0, 1]`. -/
theorem smootherStep_strictMono {a b : ℚ} (ha : 0 ≤ a) (hab : a < b) (hb : b ≤ 1) :
    smootherStep a < smootherStep b := by
  unfold smootherStep
  have h3 : (0:ℚ) < b - a := by linarith
  have h4 : (0:ℚ) ≤ 1 - (b - a) := by linarith
  nlinarith [mul_nonneg (le_of_lt h3) (sq_nonneg (a * (1 - a) + b * (1 - b))),
    mul_nonneg (mul_nonneg (mul_nonneg (le_of_lt h3) (mul_nonneg (le_of_lt h3) (le_of_lt h3))) h4)
      (by linarith : (0:ℚ) ≤ 1 + (b - a)),
    mul_pos h3 (mul_pos h3 h3)]

/-! ### Per-corner tangent-circle computation

`generatePathOps` (`beautify.ts`, lines 186–220) computes, per interior
corner: the tangent length `d = radius / tanVal` (guarded when
`|tanVal| ≤ 0.0001`), its clamp `actualD` to 45 % of the shorter leg, the
clamp-rejection flag (overridable by `settings.forceArc`), the effective
radius `actualD * |tanVal|` and the width-floor rejection. -/

/-- Inputs of the per-corner computation: `tanVal = tan(angle/2)` as computed
by the geometry kernel, the two leg lengths, the (scaled) nominal radius, the
adjacent segment widths, and the `forceArc` setting. -/
structure CornerInput where
  tanVal : ℚ
  mag1 : ℚ
  mag2 : ℚ
  radius : ℚ
  prevSegWidth : ℚ
  nextSegWidth : ℚ
  forceArc : Bool
deriving DecidableEq

/-- Tangent length `d` (`d = radius / tanVal` when `|tanVal| > 0.0001`,
else `0`; `beautify.ts` lines 196–199). -/
def cornerD (c : CornerInput) : ℚ :=
  if 1 / 10000 < |c.tanVal| then c.radius / c.tanVal else 0

/-- Length clamp `maxAllowedRadius = min(mag1 * 0.45, mag2 * 0.45)`
(`beautify.ts` line 202). -/
def maxAllowedRadius (c : CornerInput) : ℚ :=
  min (c.mag1 * (45 / 100)) (c.mag2 * (45 / 100))

/-- Clamped tangent length `actualD = min(d, maxAllowedRadius)`
(`beautify.ts` line 203). -/
def actualD (c : CornerInput) : ℚ := min (cornerD c) (maxAllowedRadius c)

/-- Wider adjacent width `maxLineWidth` (`beautify.ts` lines 78, 214). -/
def maxLineWidth (c : CornerInput) : ℚ := max c.prevSegWidth c.nextSegWidth

/-- Effective radius `actualD * |tanVal|` (`beautify.ts` line 213). -/
def effectiveRadius (c : CornerInput) : ℚ := actualD c * |c.tanVal|

/-- Length-clamp rejection (`beautify.ts` line 208): the clamp bit below 95 %
of the requested tangent length and `forceArc` is off. -/
def skippedByClamp (c : CornerInput) : Prop :=
  1 / 1000 < cornerD c ∧ actualD c < cornerD c * (95 / 100) ∧ c.forceArc = false

/-- Width-floor rejection (`beautify.ts` lines 212–217), evaluated only when
the clamp rejection did not already fire. -/
def skippedByWidth (c : CornerInput) : Prop :=
  ¬skippedByClamp c ∧ effectiveRadius c < maxLineWidth c / 2 - 1 / 20

/-- Combined rejection flag `isSkipped` of `beautify.ts` lines 204–218. -/
def cornerSkipped (c : CornerInput) : Prop := skippedByClamp c ∨ skippedByWidth c

/-- Arc acceptance (`beautify.ts` line 220): `actualD > 0.05 && !isSkipped`. -/
def cornerAccepted (c : CornerInput) : Prop := 1 / 20 < actualD c ∧ ¬cornerSkipped c

instance (c : CornerInput) : Decidable (skippedByClamp c) := by
  unfold skippedByClamp; infer_instance

instance (c : CornerInput) : Decidable (skippedByWidth c) := by
  unfold skippedByWidth; infer_instance

instance (c : CornerInput) : Decidable (cornerSkipped c) := by
  unfold cornerSkipped; infer_instance

instance (c : CornerInput) : Decidable (cornerAccepted c) := by
  unfold cornerAccepted; infer_instance

/-! ### U-turn merge acceptance

The merge branch (`beautify.ts` lines 104–183) applies the same tangent
computation with a 95 % leg clamp and then the acceptance test of line 141:
`t_actualD > 0.05 && t_effectiveRadius >= (maxLineWidth / 2) - 0.05`. -/

/-- Inputs of the merge-arc computation (`t_`-prefixed quantities of the
merge branch). -/
structure MergeInput where
  tanVal : ℚ
  mag1 : ℚ
  mag2 : ℚ
  radius : ℚ
  maxLineWidth : ℚ
deriving DecidableEq

/-- Merge tangent length `t_d` (`beautify.ts` lines 132–135). -/
def mergeD (m : MergeInput) : ℚ :=
  if 1 / 10000 < |m.tanVal| then m.radius / m.tanVal else 0

/-- Merge clamp `t_maxAllowedRadius = min(t_mag1 * 0.95, t_mag2 * 0.95)`
(`beautify.ts` line 137). -/
def mergeMaxAllowedRadius (m : MergeInput) : ℚ :=
  min (m.mag1 * (95 / 100)) (m.mag2 * (95 / 100))

/-- Merge clamped tangent length `t_actualD` (`beautify.ts` line 138). -/
def mergeActualD (m : MergeInput) : ℚ := min (mergeD m) (mergeMaxAllowedRadius m)

/-- Merge effective radius `t_effectiveRadius` (`beautify.ts` line 139). -/
def mergeEffectiveRadius (m : MergeInput) : ℚ := mergeActualD m * |m.tanVal|

/-- Merge acceptance (`beautify.ts` line 141). -/
def mergeAccepted (m : MergeInput) : Prop :=
  1 / 20 < mergeActualD m ∧ m.maxLineWidth / 2 - 1 / 20 ≤ mergeEffectiveRadius m

instance (m : MergeInput) : Decidable (mergeAccepted m) := by
  unfold mergeAccepted; infer_instance

/-- C1: every accepted arc — in the normal per-corner branch and in the
U-turn merge branch alike — has effective radius `actualD * tan(angle/2)`
at least `max(prevSegWidth, nextSegWidth) / 2 - 0.05`, and the width-floor
rejection is enforced even when `forceArc` is `true` (`forceArc` disables
only the length-clamp rejection). -/
theorem accepted_arc_meets_width_floor :
    (∀ c : CornerInput, cornerAccepted c →
      maxLineWidth c / 2 - 1 / 20 ≤ effectiveRadius c)
    ∧ (∀ m : MergeInput, mergeAccepted m →
      m.maxLineWidth / 2 - 1 / 20 ≤ mergeEffectiveRadius m)
    ∧ (∀ c : CornerInput, c.forceArc = true → cornerAccepted c →
      maxLineWidth c / 2 - 1 / 20 ≤ effectiveRadius c) := by
  have base : ∀ c : CornerInput, cornerAccepted c →
      maxLineWidth c / 2 - 1 / 20 ≤ effectiveRadius c := by
    intro c hc
    rcases hc with ⟨-, hns⟩
    have hnc : ¬skippedByClamp c := fun h => hns (Or.inl h)
    by_contra hlt
    push_neg at hlt
    exact hns (Or.inr ⟨hnc, hlt⟩)
  exact ⟨base, fun m hm => hm.2, fun c _ hc => base c hc⟩

/-- Witness for C1 at a concrete accepted corner (with `forceArc = true`,
exercising the third conjunct) and a concrete accepted merge. -/
theorem accepted_arc_meets_width_floor_witness :
    maxLineWidth ⟨1, 100, 100, 30, 10, 10, true⟩ / 2 - 1 / 20 ≤
      effectiveRadius ⟨1, 100, 100, 30, 10, 10, true⟩
    ∧ (⟨1, 100, 100, 30, 10⟩ : MergeInput).maxLineWidth / 2 - 1 / 20 ≤
      mergeEffectiveRadius ⟨1, 100, 100, 30, 10⟩ := by
  have hc : cornerAccepted ⟨1, 100, 100, 30, 10, 10, true⟩ := by
    norm_num [cornerAccepted, cornerSkipped, skippedByClamp, skippedByWidth,
      actualD, cornerD, maxAllowedRadius, effectiveRadius, maxLineWidth]
  have hm : mergeAccepted ⟨1, 100, 100, 30, 10⟩ := by
    norm_num [mergeAccepted, mergeActualD, mergeD, mergeMaxAllowedRadius,
      mergeEffectiveRadius]
  exact ⟨accepted_arc_meets_width_floor.2.2 _ rfl hc,
    accepted_arc_meets_width_floor.2.1 _ hm⟩

/-- C7 counterexample: at a corner whose clamp binds (requested radius 100,
legs of length 2), `actualD` equals `0.45 * min(leg1, leg2)` exactly, so the
claimed strict bound `actualD < 0.45 * min(leg1, leg2)` fails. -/
theorem actualD_strict_bound_fails :
    actualD ⟨1, 2, 2, 100, 10, 10, false⟩ = 9 / 10
    ∧ ¬actualD ⟨1, 2, 2, 100, 10, 10, false⟩ <
        45 / 100 * min (⟨1, 2, 2, 100, 10, 10, false⟩ : CornerInput).mag1
          (⟨1, 2, 2, 100, 10, 10, false⟩ : CornerInput).mag2 := by
  norm_num [actualD, cornerD, maxAllowedRadius]

/-- C7 amended: for every corner processed by the per-corner algorithm, the
clamped tangent length satisfies `actualD ≤ 0.45 * min(leg1, leg2)`
(non-strictly; equality is attained exactly when the clamp binds). -/
theorem actualD_le_045_min_leg (c : CornerInput) :
    actualD c ≤ 45 / 100 * min c.mag1 c.mag2 := by
  have h1 : actualD c ≤ maxAllowedRadius c := min_le_right _ _
  rcases le_total c.mag1 c.mag2 with h | h
  · have h2 : maxAllowedRadius c ≤ c.mag1 * (45 / 100) := min_le_left _ _
    rw [min_eq_left h]
    linarith
  · have h2 : maxAllowedRadius c ≤ c.mag2 * (45 / 100) := min_le_right _ _
    rw [min_eq_right h]
    linarith

/-! ### Width-transition profile

`createWidthTransition` (`widthTransition.ts`, lines 634–643) renders the
transition as `segments` sub-segments; sub-segment `i` (trailing parameter
`t2 = (i+1)/segments`) gets width `wideWidth - widthDiff * smootherStep t2`. -/

/-- Width of sub-segment `i` of a transition of `segments` sub-segments
between widths `width1` and `width2` (`widthTransition.ts` lines 634–643). -/
def transitionWidthAt (width1 width2 : ℚ) (segments i : ℕ) : ℚ :=
  let wideWidth := max width1 width2
  let narrowWidth := min width1 width2
  let widthDiff := wideWidth - narrowWidth
  wideWidth - widthDiff * smootherStep ((i + 1 : ℚ) / segments)

/-- C4: for every generated width transition of `n` sub-segments, the
sub-segment widths `wideWidth - widthDiff * smootherStep((i+1)/n)` are
non-increasing in `i`, and the final sub-segment's width equals the narrow
width exactly (`smootherStep 1 = 1`). -/
theorem transition_widths_monotone (width1 width2 : ℚ) (n : ℕ) (hn : 0 < n) :
    (∀ i : ℕ, i + 1 < n →
      transitionWidthAt width1 width2 n (i + 1) ≤ transitionWidthAt width1 width2 n i)
    ∧ transitionWidthAt width1 width2 n (n - 1) = min width1 width2 := by
  have hnq : (0:ℚ) < n := by exact_mod_cast hn
  have hdiff : (0:ℚ) ≤ max width1 width2 - min width1 width2 := by
    have := min_le_max (a := width1) (b := width2)
    linarith
  constructor
  · intro i hi
    unfold transitionWidthAt
    have hi2 : ((i:ℚ) + 1 + 1) ≤ (n : ℚ) := by
      have : (i + 2 : ℕ) ≤ n := hi
      exact_mod_cast this
    have hstep : smootherStep (((i:ℚ) + 1) / n) ≤ smootherStep (((i:ℚ) + 1 + 1) / n) := by
      apply smootherStep_mono
      · positivity
      · rw [div_le_div_iff₀ hnq hnq]
        nlinarith
      · rw [div_le_one hnq]
        exact hi2
    push_cast
    nlinarith [mul_le_mul_of_nonneg_left hstep hdiff]
  · unfold transitionWidthAt
    have hcast : ((n - 1 : ℕ) : ℚ) + 1 = (n : ℚ) := by
      have h : (n - 1) + 1 = n := Nat.succ_pred_eq_of_pos hn
      exact_mod_cast h
    rw [hcast, div_self (ne_of_gt hnq)]
    have hs1 : smootherStep 1 = 1 := by norm_num [smootherStep]
    rw [hs1]
    ring

/-- Witness for C4 at a concrete transition (widths 10 and 30, five
sub-segments). -/
theorem transition_widths_monotone_witness :
    transitionWidthAt 10 30 5 1 ≤ transitionWidthAt 10 30 5 0
    ∧ transitionWidthAt 10 30 5 4 = min (10:ℚ) 30 := by
  refine ⟨(transition_widths_monotone 10 30 5 (by norm_num)).1 0 (by norm_num), ?_⟩
  exact (transition_widths_monotone 10 30 5 (by norm_num)).2

/-! ### Junction portion split and sub-segment count

`processWidthTransitions` (`widthTransition.ts`, lines 331–357) splits the
ideal transition length between the wide and the narrow side of an accepted
junction; `createWidthTransition` (lines 588–643) derives the sub-segment
count and renders the widths. -/

/-- Balance setting after the source's `Number(...) || 50` defaulting and the
0–100 clamp (`widthTransition.ts` line 337; the JavaScript `||` maps the
value 0 to the default 50). -/
def clampBalance (b : ℚ) : ℚ := max 0 (min 100 (if b = 0 then 50 else b))

/-- Ideal transition length `|w1 - w2| * (widthTransitionRatio || 3.0)`
(`widthTransition.ts` lines 332–334). -/
def idealTransitionLength (w1 w2 ratio : ℚ) : ℚ :=
  |w1 - w2| * (if ratio = 0 then 3 else ratio)

/-- Wide-side portion: `idealLength * balance/100`, capped at 90 % of the
wide segment's length (`widthTransition.ts` lines 343, 347–349). -/
def widePortionOf (ideal balance wideLen : ℚ) : ℚ :=
  let wp := ideal * (balance / 100)
  if wideLen * (9 / 10) < wp then wideLen * (9 / 10) else wp

/-- Narrow-side portion: `idealLength * (1 - balance/100)`, capped at 90 % of
the narrow segment's length (`widthTransition.ts` lines 344, 351–353). -/
def narrowPortionOf (ideal balance narrowLen : ℚ) : ℚ :=
  let np := ideal * (1 - balance / 100)
  if narrowLen * (9 / 10) < np then narrowLen * (9 / 10) else np

/-- Sub-segment count of `createWidthTransition` (`widthTransition.ts` lines
609–627): `ceil` counts by length and by width delta at a 2-unit step, at
least 5, at most `widthTransitionSegments || 30`, further capped at 6 for
transitions shorter than 5 units. -/
def transitionSegments (transitionLength widthDiff : ℚ) (maxSegments : ℕ) : ℕ :=
  let segmentsByLen := (⌈transitionLength / 2⌉).toNat
  let segmentsByWidth := (⌈widthDiff / 2⌉).toNat
  let s := min (if maxSegments = 0 then 30 else maxSegments)
    (max 5 (max segmentsByLen segmentsByWidth))
  if transitionLength < 5 then min s 6 else s

/-- Width profile generated by `createWidthTransition` (`widthTransition.ts`
lines 583–643, widths of the emitted sub-segments in order): transition
length selection (exact fill in `forceExactLength` mode, else the ideal
length capped at 90 % of the narrow track), the `< 1` skip guard, the
sub-segment count, and the eased widths. -/
def createWidthTransitionWidths (width1 width2 narrowTrackLength ratio : ℚ)
    (maxSegments : ℕ) (forceExactLength : Bool) : List ℚ :=
  let wideWidth := max width1 width2
  let narrowWidth := min width1 width2
  let widthDiff := wideWidth - narrowWidth
  let idealLength := widthDiff * (if ratio = 0 then 3 / 2 else ratio)
  let transitionLength :=
    if forceExactLength then narrowTrackLength
    else min idealLength (narrowTrackLength * (9 / 10))
  if transitionLength < 1 then []
  else
    let segments := transitionSegments transitionLength widthDiff maxSegments
    (List.range segments).map (fun i => transitionWidthAt width1 width2 segments i)

theorem smootherStep_le_one {t : ℚ} (h0 : 0 ≤ t) (h1 : t ≤ 1) :
    smootherStep t ≤ 1 := by
  have := smootherStep_mono h0 h1 le_rfl
  have h : smootherStep 1 = 1 := by norm_num [smootherStep]
  linarith

theorem smootherStep_pos {t : ℚ} (h0 : 0 < t) (h1 : t ≤ 1) :
    0 < smootherStep t := by
  have := smootherStep_strictMono le_rfl h0 h1
  have h : smootherStep 0 = 0 := by norm_num [smootherStep]
  linarith

theorem max_10_30 : max (10:ℚ) 30 = 30 := max_eq_right (by norm_num)

theorem min_10_30 : min (10:ℚ) 30 = 10 := min_eq_left (by norm_num)

theorem chain'_gt_map_range {n : ℕ} (f : ℕ → ℚ)
    (h : ∀ i, i + 1 < n → f (i + 1) < f i) :
    ((List.range n).map f).Chain' (fun a b => b < a) := by
  cases n with
  | zero => simp
  | succ m =>
    have hc : List.Chain' (fun i j : ℕ => f j < f i) (List.range (m + 1)) :=
      (List.chain'_range_succ _ m).mpr (fun i hi => h i (by omega))
    exact List.chain'_map_of_chain' f (fun a b hab => hab) hc

/-- C5 (Scenario B): widths 10 and 30, `widthTransitionRatio = 3`,
balance 50, both segment sides of length 100 (long enough that the 90 % caps
do not bind).  The ideal length is 60, split 30 / 30, total 60; the generated
profile has 30 sub-segments whose widths strictly decrease from just below 30
down to exactly 10. -/
theorem scenarioB_transition_split :
    clampBalance 50 = 50
    ∧ idealTransitionLength 10 30 3 = 60
    ∧ widePortionOf 60 50 100 = 30
    ∧ narrowPortionOf 60 50 100 = 30
    ∧ widePortionOf 60 50 100 + narrowPortionOf 60 50 100 = 60
    ∧ createWidthTransitionWidths 10 30 60 3 30 true =
        (List.range 30).map (fun i => transitionWidthAt 10 30 30 i)
    ∧ (createWidthTransitionWidths 10 30 60 3 30 true).Chain' (fun a b => b < a)
    ∧ (createWidthTransitionWidths 10 30 60 3 30 true).getLast? = some 10
    ∧ ∀ w ∈ createWidthTransitionWidths 10 30 60 3 30 true, 10 ≤ w ∧ w < 30 := by
  have hlist : createWidthTransitionWidths 10 30 60 3 30 true =
      (List.range 30).map (fun i => transitionWidthAt 10 30 30 i) := by
    norm_num [createWidthTransitionWidths, transitionSegments]
  have hstep : ∀ i : ℕ, i + 1 < 30 →
      transitionWidthAt 10 30 30 (i + 1) < transitionWidthAt 10 30 30 i := by
    intro i hi
    unfold transitionWidthAt
    have hi2 : ((i:ℚ) + 1 + 1) ≤ (30 : ℚ) := by
      have : (i + 2 : ℕ) ≤ 30 := hi
      exact_mod_cast this
    have hs : smootherStep (((i:ℚ) + 1) / 30) < smootherStep (((i:ℚ) + 1 + 1) / 30) := by
      apply smootherStep_strictMono
      · positivity
      · rw [div_lt_div_iff₀ (by norm_num) (by norm_num : (0:ℚ) < 30)]
        nlinarith
      · rw [div_le_one (by norm_num : (0:ℚ) < 30)]
        exact hi2
    rw [max_10_30, min_10_30]
    push_cast
    nlinarith
  have hbounds : ∀ i : ℕ, i < 30 →
      10 ≤ transitionWidthAt 10 30 30 i ∧ transitionWidthAt 10 30 30 i < 30 := by
    intro i hi
    unfold transitionWidthAt
    have hi1 : ((i:ℚ) + 1) ≤ 30 := by
      have : (i + 1 : ℕ) ≤ 30 := hi
      exact_mod_cast this
    have h0 : (0:ℚ) < ((i:ℚ) + 1) / 30 := by positivity
    have h1 : ((i:ℚ) + 1) / 30 ≤ 1 := by
      rw [div_le_one (by norm_num : (0:ℚ) < 30)]
      exact hi1
    have hle := smootherStep_le_one h0.le h1
    have hpos := smootherStep_pos h0 h1
    rw [max_10_30, min_10_30]
    constructor <;> nlinarith
  refine ⟨by norm_num [clampBalance], by norm_num [idealTransitionLength],
    by norm_num [widePortionOf], by norm_num [narrowPortionOf],
    by norm_num [widePortionOf, narrowPortionOf], hlist, ?_, ?_, ?_⟩
  · rw [hlist]
    exact chain'_gt_map_range _ hstep
  · rw [hlist, show (30:ℕ) = 29 + 1 from rfl, List.range_succ, List.map_append,
      List.map_cons, List.map_nil, List.getLast?_concat]
    norm_num [transitionWidthAt, smootherStep, max_10_30, min_10_30]
  · intro w hw
    rw [hlist] at hw
    rcases List.mem_map.mp hw with ⟨i, hi, rfl⟩
    exact hbounds i (List.mem_range.mp hi)

/-- Witness for C5 at the final sub-segment of the Scenario B profile. -/
theorem scenarioB_transition_split_witness :
    10 ≤ transitionWidthAt 10 30 30 29 ∧ transitionWidthAt 10 30 30 29 < 30 := by
  have hmem : transitionWidthAt 10 30 30 29 ∈
      createWidthTransitionWidths 10 30 60 3 30 true := by
    rw [scenarioB_transition_split.2.2.2.2.2.1]
    exact List.mem_map.mpr ⟨29, by simp, rfl⟩
  exact scenarioB_transition_split.2.2.2.2.2.2.2.2 _ hmem

/-! ### The corner-smoother loop

`generatePathOps` (`beautify.ts`, lines 50–275): walks the interior points of
a path, tries the U-turn merge first (lines 104–183), otherwise runs the
per-corner computation (lines 186–261), and appends the closing straight
segment (lines 264–272).  The path is given as its point list and the widths
of its ordered segments; `badCorners` and `cornerScales` are modelled
extensionally.  The loop is driven by a fuel argument (`points.length`
suffices, since every iteration advances the corner index by 1 or 2). -/

/-- Settings consumed by `generatePathOps` (`cornerRadiusRatio`,
`mergeTransitionSegments`, `forceArc`). -/
structure BSettings where
  cornerRadiusRatio : ℚ
  mergeTransitionSegments : Bool
  forceArc : Bool

/-- Drawing-instruction discriminator (`type` field of `PathOp`). -/
inductive OpKind
  | line
  | arc
deriving DecidableEq

/-- Drawing instruction (interface `PathOp` of `beautify.ts`); `stop` models
the `end` field, and `angle` is `0` on line instructions (the source leaves
the optional field unset there). -/
structure PathOp where
  kind : OpKind
  start : Point
  stop : Point
  width : ℚ
  angle : ℚ
  cornerIndex : ℕ
deriving DecidableEq

/-- Point access `points[i]` (in-range at every use site of the loop). -/
def ptAt (points : List Point) (i : ℕ) : Point := points.getD i ⟨0, 0⟩

/-- Width of the incoming segment: `orderedSegs[i-1]?.width ?? orderedSegs[0].width`
(`beautify.ts` line 74). -/
def prevWidthAt (widths : List ℚ) (i : ℕ) : ℚ :=
  (widths.get? (i - 1)).getD ((widths.get? 0).getD 0)

/-- Width of the outgoing segment: `orderedSegs[i]?.width ?? prevSegWidth`
(`beautify.ts` line 75). -/
def nextWidthAt (widths : List ℚ) (i : ℕ) : ℚ :=
  (widths.get? i).getD (prevWidthAt widths i)

/-- Radius at corner `i`: `max(prevSegWidth, nextSegWidth) * cornerRadiusRatio`,
scaled by the corner's DRC scale when present (`beautify.ts` lines 77–100). -/
def scaledRadius (widths : List ℚ) (s : BSettings) (scales : ℕ → Option ℚ)
    (i : ℕ) : ℚ :=
  let base := max (prevWidthAt widths i) (nextWidthAt widths i) * s.cornerRadiusRatio
  match scales i with
  | some sc => base * sc
  | none => base

/-- Per-corner geometric input as computed by the loop body (`beautify.ts`
lines 186–199): leg vectors, magnitudes, clamped cosine, and
`tanVal = tan(acos(safeDot) / 2)`. -/
def cornerInputAt (sq : ℚ → ℚ) (points : List Point) (widths : List ℚ)
    (s : BSettings) (scales : ℕ → Option ℚ) (i : ℕ) : CornerInput :=
  let pPrev := ptAt points (i - 1)
  let pCorner := ptAt points i
  let pNext := ptAt points (i + 1)
  let v1 : Point := ⟨pPrev.x - pCorner.x, pPrev.y - pCorner.y⟩
  let v2 : Point := ⟨pNext.x - pCorner.x, pNext.y - pCorner.y⟩
  let mag1 := sq (v1.x ^ 2 + v1.y ^ 2)
  let mag2 := sq (v2.x ^ 2 + v2.y ^ 2)
  let dot := (v1.x * v2.x + v1.y * v2.y) / (mag1 * mag2)
  let safeDot := max (-1) (min 1 dot)
  ⟨tanHalfAcos sq safeDot, mag1, mag2, scaledRadius widths s scales i,
    prevWidthAt widths i, nextWidthAt widths i, s.forceArc⟩

/-- Conditional singleton instruction list (the merge branch emits its lead-in
straight segment only when the cursor is farther than 0.001 from the first
tangent point, `beautify.ts` line 145). -/
def optLine (c : Prop) [Decidable c] (a : PathOp) : List PathOp :=
  if c then [a] else []

theorem mem_optLine {c : Prop} [inst : Decidable c] {a op : PathOp}
    (h : op ∈ optLine c a) : op = a := by
  unfold optLine at h
  rcases inst with hc | hc
  · rw [if_neg hc] at h
    simp at h
  · rw [if_pos hc] at h
    exact List.mem_singleton.mp h

/-- U-turn merge attempt at corner `i` (`beautify.ts` lines 104–183):
gating conditions, connecting-segment length test, same-turn-direction test,
outer-leg intersection, intersection-distance test, merge-arc computation and
acceptance; on success returns the emitted instructions and the new cursor. -/
def mergeAttempt (sq : ℚ → ℚ) (at2 : ℚ → ℚ → ℚ) (points : List Point)
    (widths : List ℚ) (s : BSettings) (bad : ℕ → Bool) (scales : ℕ → Option ℚ)
    (i : ℕ) (currentStart : Point) : Option (List PathOp × Point) :=
  if s.mergeTransitionSegments = true ∧ i < points.length - 2
      ∧ (scales i).isNone = true ∧ bad (i + 1) = false then
    let pPrev := ptAt points (i - 1)
    let pCorner := ptAt points i
    let pNext := ptAt points (i + 1)
    let pAfter := ptAt points (i + 2)
    let prevW := prevWidthAt widths i
    let nextW := nextWidthAt widths i
    let radius := scaledRadius widths s scales i
    let segLen := distQ sq pCorner pNext
    if segLen < radius * (3 / 2) then
      let vIn : Point := ⟨pPrev.x - pCorner.x, pPrev.y - pCorner.y⟩
      let vMid : Point := ⟨pNext.x - pCorner.x, pNext.y - pCorner.y⟩
      let vOut : Point := ⟨pAfter.x - pNext.x, pAfter.y - pNext.y⟩
      let angle1 := getAngleBetween at2 ⟨-vIn.x, -vIn.y⟩ vMid
      let angle2 := getAngleBetween at2 vMid vOut
      if 0 < angle1 * angle2 ∧ 1 < |angle1| ∧ 1 < |angle2| then
        match getLineIntersection pPrev pCorner pNext pAfter with
        | none => none
        | some inter =>
          let dInt1 := distQ sq inter pCorner
          let dInt2 := distQ sq inter pNext
          if dInt1 < segLen * 10 ∧ dInt2 < segLen * 10 then
            let tv1 : Point := ⟨pPrev.x - inter.x, pPrev.y - inter.y⟩
            let tv2 : Point := ⟨pAfter.x - inter.x, pAfter.y - inter.y⟩
            let tmag1 := sq (tv1.x ^ 2 + tv1.y ^ 2)
            let tmag2 := sq (tv2.x ^ 2 + tv2.y ^ 2)
            let tdot := (tv1.x * tv2.x + tv1.y * tv2.y) / (tmag1 * tmag2)
            let m : MergeInput :=
              ⟨tanHalfAcos sq (max (-1) (min 1 tdot)), tmag1, tmag2, radius,
                max prevW nextW⟩
            if mergeAccepted m then
              let pStart := lerp inter pPrev (mergeActualD m / tmag1)
              let pEnd := lerp inter pAfter (mergeActualD m / tmag2)
              let swept := getAngleBetween at2 ⟨-tv1.x, -tv1.y⟩ tv2
              let afterW := (widths.get? (i + 1)).getD nextW
              let lineOps := optLine (1 / 1000 < distQ sq currentStart pStart)
                ⟨OpKind.line, currentStart, pStart, prevW, 0, i⟩
              some (lineOps ++ [⟨OpKind.arc, pStart, pEnd, afterW, swept, i⟩], pEnd)
            else none
          else none
      else none
    else none
  else none

/-- Corner loop of `generatePathOps` (`beautify.ts` lines 68–262); returns
the emitted instructions and the final cursor position. -/
def genLoop (sq : ℚ → ℚ) (at2 : ℚ → ℚ → ℚ) (points : List Point)
    (widths : List ℚ) (s : BSettings) (bad : ℕ → Bool)
    (scales : ℕ → Option ℚ) : ℕ → ℕ → Point → List PathOp × Point
  | 0, _, currentStart => ([], currentStart)
  | fuel + 1, i, currentStart =>
    if i < points.length - 1 then
      let pPrev := ptAt points (i - 1)
      let pCorner := ptAt points i
      let pNext := ptAt points (i + 1)
      let prevW := prevWidthAt widths i
      if bad i = true then
        let rest := genLoop sq at2 points widths s bad scales fuel (i + 1) pCorner
        (⟨OpKind.line, currentStart, pCorner, prevW, 0, i⟩ :: rest.1, rest.2)
      else
        match mergeAttempt sq at2 points widths s bad scales i currentStart with
        | some (mops, pEnd) =>
          let rest := genLoop sq at2 points widths s bad scales fuel (i + 2) pEnd
          (mops ++ rest.1, rest.2)
        | none =>
          let c := cornerInputAt sq points widths s scales i
          if cornerAccepted c then
            let pStart := lerp pCorner pPrev (actualD c / c.mag1)
            let pEnd := lerp pCorner pNext (actualD c / c.mag2)
            let v1 : Point := ⟨pPrev.x - pCorner.x, pPrev.y - pCorner.y⟩
            let v2 : Point := ⟨pNext.x - pCorner.x, pNext.y - pCorner.y⟩
            let swept := getAngleBetween at2 ⟨-v1.x, -v1.y⟩ v2
            let rest := genLoop sq at2 points widths s bad scales fuel (i + 1) pEnd
            (⟨OpKind.line, currentStart, pStart, prevW, 0, i⟩ ::
              ⟨OpKind.arc, pStart, pEnd, nextWidthAt widths i, swept, i⟩ :: rest.1,
              rest.2)
          else
            let rest := genLoop sq at2 points widths s bad scales fuel (i + 1) pCorner
            (⟨OpKind.line, currentStart, pCorner, prevW, 0, i⟩ :: rest.1, rest.2)
    else ([], currentStart)

/-- Full `generatePathOps` (`beautify.ts` lines 50–275): empty for paths of
fewer than 3 points, else the corner loop followed by the closing straight
segment (width `orderedSegs[last].width`, corner index `points.length - 1`). -/
def generatePathOps (sq : ℚ → ℚ) (at2 : ℚ → ℚ → ℚ) (points : List Point)
    (widths : List ℚ) (s : BSettings) (bad : ℕ → Bool)
    (scales : ℕ → Option ℚ) : List PathOp :=
  if points.length < 3 then []
  else
    let r := genLoop sq at2 points widths s bad scales points.length 1 (ptAt points 0)
    let lastW := (widths.get? (widths.length - 1)).getD ((widths.get? 0).getD 0)
    r.1 ++ [⟨OpKind.line, r.2, ptAt points (points.length - 1), lastW, 0,
      points.length - 1⟩]

theorem mergeAttempt_angle_range {sq : ℚ → ℚ} {at2 : ℚ → ℚ → ℚ}
    {points : List Point} {widths : List ℚ} {s : BSettings} {bad : ℕ → Bool}
    {scales : ℕ → Option ℚ} {i : ℕ} {currentStart : Point}
    {mops : List PathOp} {pEnd : Point}
    (h : mergeAttempt sq at2 points widths s bad scales i currentStart = some (mops, pEnd)) :
    ∀ op ∈ mops, -180 < op.angle ∧ op.angle ≤ 180 := by
  unfold mergeAttempt at h
  dsimp only at h
  split_ifs at h
  all_goals try exact Option.noConfusion h
  rcases hX : getLineIntersection (ptAt points (i - 1)) (ptAt points i)
      (ptAt points (i + 1)) (ptAt points (i + 2)) with - | inter
  · rw [hX] at h
    dsimp only at h
    exact Option.noConfusion h
  rw [hX] at h
  dsimp only at h
  split_ifs at h
  all_goals try exact Option.noConfusion h
  rw [Option.some.injEq, Prod.mk.injEq] at h
  obtain ⟨h1, -⟩ := h
  subst h1
  intro op hop
  rcases List.mem_append.mp hop with hop | hop
  · rcases mem_optLine hop with rfl
    norm_num
  · rcases List.mem_singleton.mp hop with rfl
    exact ⟨getAngleBetween_gt _ _ _, getAngleBetween_le _ _ _⟩

theorem genLoop_angle_range (sq : ℚ → ℚ) (at2 : ℚ → ℚ → ℚ)
    (points : List Point) (widths : List ℚ) (s : BSettings) (bad : ℕ → Bool)
    (scales : ℕ → Option ℚ) :
    ∀ fuel i currentStart op,
      op ∈ (genLoop sq at2 points widths s bad scales fuel i currentStart).1 →
      -180 < op.angle ∧ op.angle ≤ 180 := by
  intro fuel
  induction fuel with
  | zero =>
    intro i cs op h
    simp [genLoop] at h
  | succ n ih =>
    intro i cs op hmem
    rw [genLoop] at hmem
    by_cases hcond : i < points.length - 1
    · rw [if_pos hcond] at hmem
      dsimp only at hmem
      by_cases hbad : bad i = true
      · rw [if_pos hbad] at hmem
        dsimp only at hmem
        rcases List.mem_cons.mp hmem with rfl | hmem
        · norm_num
        · exact ih _ _ _ hmem
      · rw [if_neg hbad] at hmem
        rcases hm : mergeAttempt sq at2 points widths s bad scales i cs with
          - | ⟨mops, pEnd⟩
        · rw [hm] at hmem
          dsimp only at hmem
          by_cases hacc : cornerAccepted (cornerInputAt sq points widths s scales i)
          · rw [if_pos hacc] at hmem
            dsimp only at hmem
            rcases List.mem_cons.mp hmem with rfl | hmem
            · norm_num
            rcases List.mem_cons.mp hmem with rfl | hmem
            · exact ⟨getAngleBetween_gt _ _ _, getAngleBetween_le _ _ _⟩
            · exact ih _ _ _ hmem
          · rw [if_neg hacc] at hmem
            dsimp only at hmem
            rcases List.mem_cons.mp hmem with rfl | hmem
            · norm_num
            · exact ih _ _ _ hmem
        · rw [hm] at hmem
          dsimp only at hmem
          rcases List.mem_append.mp hmem with hmem | hmem
          · exact mergeAttempt_angle_range hm op hmem
          · exact ih _ _ _ hmem
    · rw [if_neg hcond] at hmem
      simp at hmem

theorem isqrt_0 : isqrt 0 = 0 := by decide

theorem isqrt_1 : isqrt 1 = 1 := by decide

theorem isqrt_100 : isqrt 100 = 10 := by decide

theorem isqrt_10000 : isqrt 10000 = 100 := by decide

theorem ratSqrt_0 : ratSqrt 0 = 0 := by
  norm_num [ratSqrt, isqrt_0, isqrt_1]

theorem ratSqrt_1 : ratSqrt 1 = 1 := by
  norm_num [ratSqrt, isqrt_1]

theorem ratSqrt_100 : ratSqrt 100 = 10 := by
  norm_num [ratSqrt, isqrt_100, isqrt_1]

theorem ratSqrt_10000 : ratSqrt 10000 = 100 := by
  norm_num [ratSqrt, isqrt_10000, isqrt_1]

theorem normAngle_90 : normAngle 90 = 90 := by
  have h : (⌈((90:ℚ) - 180) / 360⌉ : ℤ) = 0 := by
    rw [Int.ceil_eq_iff] <;> norm_num
  norm_num [normAngle, h]

/-- C10: every arc instruction emitted by the corner smoother carries a
signed sweep angle in `(-180, 180]`, because arc sweeps are always produced
by the angle-between normalization (`getAngleBetween`). -/
theorem arc_sweep_angle_in_range (sq : ℚ → ℚ) (at2 : ℚ → ℚ → ℚ)
    (points : List Point) (widths : List ℚ) (s : BSettings) (bad : ℕ → Bool)
    (scales : ℕ → Option ℚ) (op : PathOp)
    (hmem : op ∈ generatePathOps sq at2 points widths s bad scales)
    (hk : op.kind = OpKind.arc) :
    -180 < op.angle ∧ op.angle ≤ 180 := by
  unfold generatePathOps at hmem
  split at hmem
  · simp at hmem
  · rcases List.mem_append.mp hmem with hmem | hmem
    · exact genLoop_angle_range sq at2 points widths s bad scales _ _ _ op hmem
    · rcases List.mem_singleton.mp hmem with rfl
      norm_num

/-- Witness path for C10: an L of two width-1 segments of length 10 with
radius ratio 1 (merge disabled), whose single corner is accepted and emits an
arc with sweep 90. -/
theorem witnessL_ops :
    generatePathOps ratSqrt atan2DegAx [⟨0, 10⟩, ⟨0, 0⟩, ⟨10, 0⟩] [1, 1]
      ⟨1, false, false⟩ (fun _ => false) (fun _ => none) =
      [⟨OpKind.line, ⟨0, 10⟩, ⟨0, 1⟩, 1, 0, 1⟩,
        ⟨OpKind.arc, ⟨0, 1⟩, ⟨1, 0⟩, 1, 90, 1⟩,
        ⟨OpKind.line, ⟨1, 0⟩, ⟨10, 0⟩, 1, 0, 2⟩] := by
  norm_num [generatePathOps, genLoop, mergeAttempt, cornerInputAt, scaledRadius,
    prevWidthAt, nextWidthAt, ptAt, distQ, tanHalfAcos, ratSqrt_0, ratSqrt_1,
    ratSqrt_100, ratSqrt_10000, cornerAccepted, cornerSkipped, skippedByClamp,
    skippedByWidth, actualD, cornerD, maxAllowedRadius, effectiveRadius,
    maxLineWidth, lerp, getAngleBetween, getAngle, atan2DegAx, normAngle_90,
    List.getD, List.get?, min_def, max_def]

/-- Witness for C10: the theorem applied to the arc emitted on the witness
path. -/
theorem arc_sweep_angle_in_range_witness : -180 < (90:ℚ) ∧ (90:ℚ) ≤ 180 := by
  have hmem : (⟨OpKind.arc, ⟨0, 1⟩, ⟨1, 0⟩, 1, 90, 1⟩ : PathOp) ∈
      generatePathOps ratSqrt atan2DegAx [⟨0, 10⟩, ⟨0, 0⟩, ⟨10, 0⟩] [1, 1]
        ⟨1, false, false⟩ (fun _ => false) (fun _ => none) := by
    rw [witnessL_ops]
    simp
  simpa using arc_sweep_angle_in_range ratSqrt atan2DegAx
    [⟨0, 10⟩, ⟨0, 0⟩, ⟨10, 0⟩] [1, 1] ⟨1, false, false⟩ (fun _ => false)
    (fun _ => none) ⟨OpKind.arc, ⟨0, 1⟩, ⟨1, 0⟩, 1, 90, 1⟩ hmem rfl

/-- Scenario A path: three collinear-then-90°-turn segments of width 10
(points `(0,0) (100,0) (200,0) (200,100)`). -/
def scnAPoints : List Point := [⟨0, 0⟩, ⟨100, 0⟩, ⟨200, 0⟩, ⟨200, 100⟩]

/-- Scenario A settings: `cornerRadiusRatio = 3.0`, merge enabled, `forceArc`
off. -/
def scnASettings : BSettings := ⟨3, true, false⟩

theorem scnA_ops :
    generatePathOps ratSqrt atan2DegAx scnAPoints [10, 10, 10] scnASettings
      (fun _ => false) (fun _ => none) =
      [⟨OpKind.line, ⟨0, 0⟩, ⟨100, 0⟩, 10, 0, 1⟩,
        ⟨OpKind.line, ⟨100, 0⟩, ⟨170, 0⟩, 10, 0, 2⟩,
        ⟨OpKind.arc, ⟨170, 0⟩, ⟨200, 30⟩, 10, 90, 2⟩,
        ⟨OpKind.line, ⟨200, 30⟩, ⟨200, 100⟩, 10, 0, 3⟩] := by
  norm_num [generatePathOps, genLoop, mergeAttempt, cornerInputAt, scaledRadius,
    prevWidthAt, nextWidthAt, ptAt, distQ, tanHalfAcos, ratSqrt_0, ratSqrt_1,
    ratSqrt_100, ratSqrt_10000, cornerAccepted, cornerSkipped, skippedByClamp,
    skippedByWidth, actualD, cornerD, maxAllowedRadius, effectiveRadius,
    maxLineWidth, lerp, getAngleBetween, getAngle, atan2DegAx, normAngle_90,
    List.getD, List.get?, min_def, max_def, scnAPoints, scnASettings]

theorem scnA_corner_effectiveRadius :
    effectiveRadius (cornerInputAt ratSqrt scnAPoints [10, 10, 10] scnASettings
      (fun _ => none) 2) = 30 := by
  norm_num [cornerInputAt, scaledRadius, prevWidthAt, nextWidthAt, ptAt,
    tanHalfAcos, ratSqrt_1, ratSqrt_10000, effectiveRadius, actualD, cornerD,
    maxAllowedRadius, List.getD, List.get?, min_def, max_def, scnAPoints,
    scnASettings]

/-- C6 counterexample: on Scenario A (three collinear-then-90°-turn width-10
segments, legs of length 100, `cornerRadiusRatio = 3.0`) the smoother emits
exactly one arc of sweep 90, but the accepted corner's effective radius is
30 — the claimed value 15 is wrong. -/
theorem scenarioA_effective_radius_not_15 :
    generatePathOps ratSqrt atan2DegAx scnAPoints [10, 10, 10] scnASettings
      (fun _ => false) (fun _ => none) =
      [⟨OpKind.line, ⟨0, 0⟩, ⟨100, 0⟩, 10, 0, 1⟩,
        ⟨OpKind.line, ⟨100, 0⟩, ⟨170, 0⟩, 10, 0, 2⟩,
        ⟨OpKind.arc, ⟨170, 0⟩, ⟨200, 30⟩, 10, 90, 2⟩,
        ⟨OpKind.line, ⟨200, 30⟩, ⟨200, 100⟩, 10, 0, 3⟩]
    ∧ ¬effectiveRadius (cornerInputAt ratSqrt scnAPoints [10, 10, 10]
        scnASettings (fun _ => none) 2) = 15 := by
  refine ⟨scnA_ops, ?_⟩
  rw [scnA_corner_effectiveRadius]
  norm_num

/-- C6 amended: on Scenario A the smoother emits exactly one arc, its sweep
angle has magnitude 90, and the accepted corner's effective radius is 30
(= widest adjacent width 10 × ratio 3), not 15. -/
theorem scenarioA_one_arc_sweep90_radius30 :
    (generatePathOps ratSqrt atan2DegAx scnAPoints [10, 10, 10] scnASettings
        (fun _ => false) (fun _ => none)).filter
        (fun op => decide (op.kind = OpKind.arc)) =
      [⟨OpKind.arc, ⟨170, 0⟩, ⟨200, 30⟩, 10, 90, 2⟩]
    ∧ |(90:ℚ)| = 90
    ∧ effectiveRadius (cornerInputAt ratSqrt scnAPoints [10, 10, 10]
        scnASettings (fun _ => none) 2) = 30 := by
  refine ⟨?_, by norm_num, scnA_corner_effectiveRadius⟩
  rw [scnA_ops]
  simp [List.filter]

/-! ### Path extraction

`beautifyRouting` (`beautify.ts`, lines 392–569) maps each net+layer group to
segments, builds the endpoint-key adjacency map (`pointKey` quantizes each
coordinate with `toFixed(3)`; every segment is pushed to the lists of both of
its endpoint keys, lines 404–417 — note the source applies NO zero-length
filter), grows a path from every unvisited segment by extending first at the
tail and then at the head while the touched key has degree ≤ 2 (lines
420–491), and keeps the path only when it has at least 3 points (line 493). -/

/-- Segment record as assembled by the extractor (`segs = group.map(...)`,
`beautify.ts` lines 396–402; the host track back-reference is omitted). -/
structure Seg where
  p1 : Point
  p2 : Point
  width : ℚ
  sid : ℕ
deriving DecidableEq

/-- Coordinate key: the source keys the adjacency map by the string
`x.toFixed(3) + "," + y.toFixed(3)`; the 3-decimal quantization is modelled
by rounding each coordinate times 1000 (exact on the integer coordinates all
concrete inputs use). -/
def pkey (p : Point) : ℤ × ℤ := (round (p.x * 1000), round (p.y * 1000))

/-- Adjacency list of the `connections` map at key `k`: the source pushes
each segment (in input order) onto the list of its `p1` key and onto the list
of its `p2` key (`beautify.ts` lines 407–417), so a zero-length segment
appears twice under its single key. -/
def connAt (segs : List Seg) (k : ℤ × ℤ) : List Seg :=
  segs.flatMap (fun sg =>
    (if pkey sg.p1 = k then [sg] else []) ++ (if pkey sg.p2 = k then [sg] else []))

/-- First not-yet-used segment of an adjacency list (the `for … if used
continue` scan of `beautify.ts` lines 440–459). -/
def findUnused : List Seg → List ℕ → Option Seg
  | [], _ => none
  | sg :: tl, used => if sg.sid ∈ used then findUnused tl used else some sg

/-- One extension attempt at the key `k`: stop at branch points (degree > 2),
otherwise take the first unused incident segment (`beautify.ts` lines
435–459). -/
def tryExtend (segs : List Seg) (used : List ℕ) (k : ℤ × ℤ) : Option Seg :=
  let conns := connAt segs k
  if conns.length ≤ 2 then findUnused conns used else none

/-- The `while (extended)` growth loop (`beautify.ts` lines 430–491): extend
at the tail first, then at the head, appending the far endpoint of the chosen
segment; fuel-driven (each iteration consumes an unused segment). -/
def growPath (segs : List Seg) :
    ℕ → List Point → List Seg → List ℕ → List Point × List Seg × List ℕ
  | 0, pts, osegs, used => (pts, osegs, used)
  | fuel + 1, pts, osegs, used =>
    let lastKey := pkey (pts.getLastD ⟨0, 0⟩)
    match tryExtend segs used lastKey with
    | some sg =>
      if pkey sg.p1 = lastKey then
        growPath segs fuel (pts ++ [sg.p2]) (osegs ++ [sg]) (sg.sid :: used)
      else
        growPath segs fuel (pts ++ [sg.p1]) (osegs ++ [sg]) (sg.sid :: used)
    | none =>
      let firstKey := pkey (pts.headD ⟨0, 0⟩)
      match tryExtend segs used firstKey with
      | some sg =>
        if pkey sg.p1 = firstKey then
          growPath segs fuel (sg.p2 :: pts) (sg :: osegs) (sg.sid :: used)
        else
          growPath segs fuel (sg.p1 :: pts) (sg :: osegs) (sg.sid :: used)
      | none => (pts, osegs, used)

/-- Body of the `for (const startSeg of segs)` loop (`beautify.ts` lines
422–567): skip used segments, grow a path seeded with the segment's two
endpoints, and keep it only when it has at least 3 points. -/
def extractStep (segs : List Seg) (acc : List (List Point × List Seg) × List ℕ)
    (sg : Seg) : List (List Point × List Seg) × List ℕ :=
  if sg.sid ∈ acc.2 then acc
  else
    let g := growPath segs (2 * segs.length + 2) [sg.p1, sg.p2] [sg] (sg.sid :: acc.2)
    if 3 ≤ g.1.length then (acc.1 ++ [(g.1, g.2.1)], g.2.2) else (acc.1, g.2.2)

/-- Path extraction over one net+layer group. -/
def extractPaths (segs : List Seg) : List (List Point × List Seg) :=
  (segs.foldl (extractStep segs) ([], [])).1

theorem extractPaths_min_points {segs : List Seg} :
    ∀ pr ∈ extractPaths segs, 3 ≤ pr.1.length := by
  suffices h : ∀ (l : List Seg) (acc : List (List Point × List Seg) × List ℕ),
      (∀ pr ∈ acc.1, 3 ≤ pr.1.length) →
      ∀ pr ∈ (l.foldl (extractStep segs) acc).1, 3 ≤ pr.1.length by
    intro pr hpr
    exact h segs ([], []) (by simp) pr hpr
  intro l
  induction l with
  | nil => intro acc hacc pr hpr; exact hacc pr hpr
  | cons sg tl ih =>
    intro acc hacc pr hpr
    rw [List.foldl_cons] at hpr
    refine ih (extractStep segs acc sg) ?_ pr hpr
    intro q hq
    unfold extractStep at hq
    split at hq
    · exact hacc q hq
    · dsimp only at hq
      split at hq
      · rcases List.mem_append.mp hq with hq | hq
        · exact hacc q hq
        · rcases List.mem_singleton.mp hq with rfl
          assumption
      · exact hacc q hq

/-- C9 counterexample: a zero-length segment (coincident endpoints) is NOT
removed before adjacency construction — it lands in the adjacency map, twice
under its own endpoint key, i.e. exactly the self-loop entry the claim says
can never exist. -/
theorem zero_length_segment_not_filtered :
    distQ ratSqrt (⟨0, 0⟩ : Point) ⟨0, 0⟩ = 0
    ∧ connAt [⟨⟨0, 0⟩, ⟨0, 0⟩, 10, 7⟩] (pkey ⟨0, 0⟩) =
        [⟨⟨0, 0⟩, ⟨0, 0⟩, 10, 7⟩, ⟨⟨0, 0⟩, ⟨0, 0⟩, 10, 7⟩] := by
  constructor
  · norm_num [distQ, ratSqrt_0]
  · simp [connAt, List.flatMap]

/-- C9 amended: the extractor applies no zero-length filter, so a zero-length
segment produces a self-loop entry (it is listed twice under its own endpoint
key); nevertheless every extracted path has at least 3 points. -/
theorem extractor_self_loop_and_min_points :
    connAt [⟨⟨0, 0⟩, ⟨0, 0⟩, 10, 7⟩] (pkey ⟨0, 0⟩) =
        [⟨⟨0, 0⟩, ⟨0, 0⟩, 10, 7⟩, ⟨⟨0, 0⟩, ⟨0, 0⟩, 10, 7⟩]
    ∧ ∀ (segs : List Seg) (pr : List Point × List Seg),
        pr ∈ extractPaths segs → 3 ≤ pr.1.length := by
  constructor
  · simp [connAt, List.flatMap]
  · intro segs pr hpr
    exact extractPaths_min_points pr hpr

/-! ### DRC check parsing (`drc.ts`)

`runDrcCheckAndParse` (`drc.ts`, lines 69–121) calls the external checker and
extracts the set of violating primitive identifiers from its three-level
report (categories → sub-categories → issues).  A thrown exception is caught
and the (empty) accumulated set returned; a non-array response likewise
returns the empty set.  Identifiers are opaque; they are modelled as `ℕ`.
The `includes('Copper Region')` string tests on external report fields are
modelled as boolean fields of the report. -/

/-- Opaque primitive identifier. -/
abbrev PrimId := ℕ

/-- One DRC issue: the `objs` id list (main source), the optional
`explanation.errData.obj1/obj2` ids (backup source), and the result of
`errorObjType?.includes('Copper Region')`. -/
structure DrcIssue where
  objs : List PrimId
  errObj1 : Option PrimId
  errObj2 : Option PrimId
  isCopperIssue : Bool

/-- One DRC sub-category: the result of `name?.includes('Copper Region')`
and its issue list. -/
structure DrcSub where
  isCopperSub : Bool
  list : List DrcIssue

/-- One DRC category (its `name`/`count` fields are log-only and omitted). -/
structure DrcCategory where
  list : List DrcSub

/-- Shape of the external checker's response: an exception, a non-array
value, or the category report. -/
inductive DrcRaw
  | throws
  | nonArray
  | categories (cats : List DrcCategory)

/-- Set-insertion into the accumulated id list (`Set.add`). -/
def addId (l : List PrimId) (i : PrimId) : List PrimId :=
  if i ∈ l then l else l ++ [i]

/-- Id extraction from one issue (`extractViolatedIds` of `drc.ts`, lines
203–220): all string entries of `objs`, then `errData.obj1` and
`errData.obj2` when present. -/
def extractViolatedIds (issue : DrcIssue) (ids : List PrimId) : List PrimId :=
  let ids1 := issue.objs.foldl addId ids
  let ids2 := match issue.errObj1 with | some i => addId ids1 i | none => ids1
  match issue.errObj2 with | some i => addId ids2 i | none => ids2

/-- Copper-pour filtering (`filterOutCopperPourIssues` of `drc.ts`, lines
249–264): drop copper sub-categories, drop copper issues, prune empty
sub-categories and categories. -/
def filterOutCopperPourIssues (cats : List DrcCategory) : List DrcCategory :=
  (cats.map (fun c =>
    DrcCategory.mk (((c.list.filter (fun sub => !sub.isCopperSub)).map
      (fun sub => DrcSub.mk sub.isCopperSub
        (sub.list.filter (fun iss => !iss.isCopperIssue)))).filter
      (fun sub => !sub.list.isEmpty)))).filter (fun c => !c.list.isEmpty)

/-- DRC check-and-parse (`runDrcCheckAndParse` of `drc.ts`, lines 69–121):
empty when DRC is disabled, empty when the checker throws (the `catch`
returns the accumulated set, still empty at the point of the call) or
returns a non-array, otherwise the three-level traversal of the (optionally
copper-filtered) report. -/
def runDrcCheckAndParse (enableDRC drcIgnoreCopperPour : Bool) (raw : DrcRaw) :
    List PrimId :=
  if enableDRC = false then []
  else
    match raw with
    | .throws => []
    | .nonArray => []
    | .categories cats =>
      let filtered :=
        if drcIgnoreCopperPour = true then filterOutCopperPourIssues cats else cats
      filtered.foldl (fun acc c =>
        c.list.foldl (fun acc2 sub =>
          sub.list.foldl (fun a iss => extractViolatedIds iss a) acc2) acc) []

/-! ### DRC feedback loop (`beautify.ts`, lines 647–738)

Per-invocation path context: the ids created for the path, the id → corner
map, and the per-corner state (`badCorners` set, `cornerScales` map, both
modelled extensionally).  The loop runs at most `maxDrcRetries + 1` check
cycles (`while (drcAttempt <= maxDrcRetries)`), where
`maxDrcRetries = settings.drcRetryCount || 4`; each cycle halves the scale
of every corner owning a violating primitive id — or marks it bad on the
final attempt or when the halved scale drops below 0.1 — and re-emits only
the affected paths (re-emission touches only `createdIds`/`idToCornerMap`;
it is abstracted as the external id assignment `reEmit`).  The geometry
fields of the source's `PathContext` are read-only for the loop and omitted
here. -/

/-- Path context state consumed by the DRC loop. -/
structure PathCtx where
  createdIds : List PrimId
  idToCorner : List (PrimId × ℕ)
  badCorners : ℕ → Bool
  cornerScales : ℕ → Option ℚ

/-- Corner state alone (`badCorners` / `cornerScales`). -/
structure CState where
  badCorners : ℕ → Bool
  cornerScales : ℕ → Option ℚ

/-- Lookup in the id → corner map (`idToCornerMap.get(id)`). -/
def lookupCorner : List (PrimId × ℕ) → PrimId → Option ℕ
  | [], _ => none
  | pr :: tl, idv => if pr.1 = idv then some pr.2 else lookupCorner tl idv

/-- Extensional update modelling `cornerScales.set(idx, v)`. -/
def setScale (f : ℕ → Option ℚ) (k : ℕ) (v : ℚ) : ℕ → Option ℚ :=
  fun j => if j = k then some v else f j

/-- Extensional update modelling `badCorners.add(idx)`. -/
def addBad (f : ℕ → Bool) (k : ℕ) : ℕ → Bool :=
  fun j => if j = k then true else f j

/-- Current scale of a corner, `cornerScales.get(idx) ?? 1.0` (`beautify.ts` line 682). -/
def scaleOf (f : ℕ → Option ℚ) (k : ℕ) : ℚ := (f k).getD 1

/-- One step of the inner `for (const id of ctx.createdIds)` loop
(`beautify.ts` lines 672–697): for a violating id that maps to a corner,
halve that corner's scale, or mark the corner bad on the final attempt or
when the halved scale falls below 0.1; the boolean is `needsUpdate`. -/
def drcStep (isFinal : Bool) (violated : List PrimId)
    (idMap : List (PrimId × ℕ)) (st : CState × Bool) (idv : PrimId) :
    CState × Bool :=
  if idv ∈ violated then
    match lookupCorner idMap idv with
    | some idx =>
      let currentScale := scaleOf st.1.cornerScales idx
      let nextScale := currentScale * (1 / 2)
      if isFinal = true ∨ nextScale < 1 / 10 then
        (⟨addBad st.1.badCorners idx, st.1.cornerScales⟩, true)
      else
        (⟨st.1.badCorners, setScale st.1.cornerScales idx nextScale⟩, true)
    | none => st
  else st

/-- Corner-state reaction of one path context to one checking result
(`beautify.ts` lines 670–701). -/
def processCtx (isFinal : Bool) (violated : List PrimId) (ctx : PathCtx) :
    PathCtx × Bool :=
  let r := ctx.createdIds.foldl (drcStep isFinal violated ctx.idToCorner)
    (⟨ctx.badCorners, ctx.cornerScales⟩, false)
  ({ ctx with badCorners := r.1.badCorners, cornerScales := r.1.cornerScales },
    r.2)

/-- Retry count defaulting `settings.drcRetryCount || 4` (`beautify.ts` line 650; JavaScript `||`
maps a configured 0 to the default 4). -/
def effectiveRetryCount (n : ℕ) : ℕ := if n = 0 then 4 else n

/-- The `while (drcAttempt <= maxDrcRetries)` loop (`beautify.ts` lines
652–733), returning the final contexts and the number of check cycles
performed.  `oracle k` is the parsed violation set of cycle `k`;
`reEmit k ctx` the external id assignment produced by deleting and
re-creating a repaired path's primitives. -/
def drcLoopAux (oracle : ℕ → List PrimId)
    (reEmit : ℕ → PathCtx → List PrimId × List (PrimId × ℕ)) (maxR : ℕ) :
    ℕ → ℕ → List PathCtx → List PathCtx × ℕ
  | 0, _, ctxs => (ctxs, 0)
  | fuel + 1, attempt, ctxs =>
    let violated := oracle attempt
    if violated = [] then (ctxs, 1)
    else
      let isFinal : Bool := if attempt = maxR then true else false
      let results := ctxs.map (processCtx isFinal violated)
      if ∀ r ∈ results, r.2 = false then (results.map Prod.fst, 1)
      else
        let ctxs2 := results.map (fun r =>
          if r.2 = true then
            let e := reEmit attempt r.1
            { r.1 with createdIds := e.1, idToCorner := e.2 }
          else r.1)
        let res := drcLoopAux oracle reEmit maxR fuel (attempt + 1) ctxs2
        (res.1, res.2 + 1)

/-- The full DRC feedback loop with the source's retry-count defaulting. -/
def drcLoop (drcRetryCount : ℕ) (oracle : ℕ → List PrimId)
    (reEmit : ℕ → PathCtx → List PrimId × List (PrimId × ℕ))
    (ctxs : List PathCtx) : List PathCtx × ℕ :=
  let maxR := effectiveRetryCount drcRetryCount
  drcLoopAux oracle reEmit maxR (maxR + 1) 0 ctxs

/-- All scales stored in a corner-scale map are nonnegative (true of every
state the loop reaches: scales start absent, i.e. 1.0, and are only ever
halved). -/
def scalesNonneg (f : ℕ → Option ℚ) : Prop := ∀ k v, f k = some v → 0 ≤ v

/-- Evolution order on corner states: nonnegativity is preserved, bad
corners only grow, and (under nonnegative stored scales) no scale grows. -/
def stateLe (s1 s2 : CState) : Prop :=
  (scalesNonneg s1.cornerScales → scalesNonneg s2.cornerScales)
  ∧ (∀ k, s1.badCorners k = true → s2.badCorners k = true)
  ∧ (scalesNonneg s1.cornerScales →
      ∀ k, scaleOf s2.cornerScales k ≤ scaleOf s1.cornerScales k)

theorem stateLe_refl (s : CState) : stateLe s s :=
  ⟨id, fun _ h => h, fun _ _ => le_rfl⟩

theorem stateLe_trans {s1 s2 s3 : CState} (h12 : stateLe s1 s2)
    (h23 : stateLe s2 s3) : stateLe s1 s3 := by
  refine ⟨fun h => h23.1 (h12.1 h), fun k hk => h23.2.1 k (h12.2.1 k hk),
    fun h k => ?_⟩
  exact le_trans (h23.2.2 (h12.1 h) k) (h12.2.2 h k)

theorem scaleOf_nonneg {f : ℕ → Option ℚ} (h : scalesNonneg f) (k : ℕ) :
    0 ≤ scaleOf f k := by
  unfold scaleOf
  cases hf : f k with
  | none => norm_num
  | some v => simpa using h k v hf

theorem scalesNonneg_setScale {f : ℕ → Option ℚ} {v : ℚ} (h : scalesNonneg f)
    (hv : 0 ≤ v) (k : ℕ) : scalesNonneg (setScale f k v) := by
  intro j w hw
  unfold setScale at hw
  by_cases hj : j = k
  · rw [if_pos hj, Option.some.injEq] at hw
    rw [← hw]; exact hv
  · rw [if_neg hj] at hw
    exact h j w hw

theorem scaleOf_setScale_same (f : ℕ → Option ℚ) (k : ℕ) (v : ℚ) :
    scaleOf (setScale f k v) k = v := by
  simp [scaleOf, setScale]

theorem scaleOf_setScale_other (f : ℕ → Option ℚ) {j k : ℕ} (v : ℚ)
    (h : j ≠ k) : scaleOf (setScale f k v) j = scaleOf f j := by
  simp [scaleOf, setScale, h]

theorem drcStep_stateLe (isFinal : Bool) (violated : List PrimId)
    (idMap : List (PrimId × ℕ)) (st : CState × Bool) (idv : PrimId) :
    stateLe st.1 (drcStep isFinal violated idMap st idv).1 := by
  unfold drcStep
  split
  · rcases hl : lookupCorner idMap idv with - | idx
    · exact stateLe_refl _
    · dsimp only
      split
      · refine ⟨fun h => h, fun k hk => ?_, fun h k => le_rfl⟩
        unfold addBad
        by_cases hk' : k = idx
        · simp [hk']
        · simp [hk', hk]
      · refine ⟨?_, fun k hk => hk, ?_⟩
        · intro h
          refine scalesNonneg_setScale h ?_ idx
          have := scaleOf_nonneg h idx
          linarith
        · intro h k
          by_cases hk : k = idx
          · subst hk
            rw [scaleOf_setScale_same]
            have := scaleOf_nonneg h k
            linarith
          · rw [scaleOf_setScale_other _ _ hk]
  · exact stateLe_refl _

theorem foldl_drcStep_stateLe (isFinal : Bool) (violated : List PrimId)
    (idMap : List (PrimId × ℕ)) :
    ∀ (l : List PrimId) (st : CState × Bool),
      stateLe st.1 ((l.foldl (drcStep isFinal violated idMap) st).1) := by
  intro l
  induction l with
  | nil => intro st; exact stateLe_refl _
  | cons idv tl ih =>
    intro st
    rw [List.foldl_cons]
    exact stateLe_trans (drcStep_stateLe isFinal violated idMap st idv) (ih _)

theorem drcStep_hit_bad {isFinal : Bool} {violated : List PrimId}
    {idMap : List (PrimId × ℕ)} {st : CState × Bool} {idv : PrimId} {idx : ℕ}
    (hv : idv ∈ violated) (hl : lookupCorner idMap idv = some idx)
    (hc : isFinal = true ∨ scaleOf st.1.cornerScales idx * (1 / 2) < 1 / 10) :
    drcStep isFinal violated idMap st idv =
      (⟨addBad st.1.badCorners idx, st.1.cornerScales⟩, true) := by
  unfold drcStep
  rw [if_pos hv, hl]
  dsimp only
  rw [if_pos hc]

theorem drcStep_hit_set {isFinal : Bool} {violated : List PrimId}
    {idMap : List (PrimId × ℕ)} {st : CState × Bool} {idv : PrimId} {idx : ℕ}
    (hv : idv ∈ violated) (hl : lookupCorner idMap idv = some idx)
    (hc : ¬(isFinal = true ∨ scaleOf st.1.cornerScales idx * (1 / 2) < 1 / 10)) :
    drcStep isFinal violated idMap st idv =
      (⟨st.1.badCorners,
        setScale st.1.cornerScales idx (scaleOf st.1.cornerScales idx * (1 / 2))⟩,
        true) := by
  unfold drcStep
  rw [if_pos hv, hl]
  dsimp only
  rw [if_neg hc]

theorem foldl_drcStep_implicated (isFinal : Bool) (violated : List PrimId)
    (idMap : List (PrimId × ℕ)) :
    ∀ (l : List PrimId) (st : CState × Bool) (idx : ℕ) (s0 : ℚ),
      scalesNonneg st.1.cornerScales →
      scaleOf st.1.cornerScales idx ≤ s0 →
      (∃ idv, idv ∈ l ∧ idv ∈ violated ∧ lookupCorner idMap idv = some idx) →
      scaleOf ((l.foldl (drcStep isFinal violated idMap) st).1).cornerScales idx ≤ s0 / 2
      ∨ ((l.foldl (drcStep isFinal violated idMap) st).1).badCorners idx = true := by
  intro l
  induction l with
  | nil =>
    intro st idx s0 _ _ hex
    rcases hex with ⟨idv, hmem, -⟩
    simp at hmem
  | cons a tl ih =>
    intro st idx s0 hnn hle hex
    rcases hex with ⟨idv, hmem, hviol, hlook⟩
    rw [List.foldl_cons]
    rcases List.mem_cons.mp hmem with rfl | hmem'
    · by_cases hc : isFinal = true ∨ scaleOf st.1.cornerScales idx * (1 / 2) < 1 / 10
      · rw [drcStep_hit_bad hviol hlook hc]
        right
        have hrest := foldl_drcStep_stateLe isFinal violated idMap tl
          (⟨addBad st.1.badCorners idx, st.1.cornerScales⟩, true)
        refine hrest.2.1 idx ?_
        unfold addBad
        simp
      · rw [drcStep_hit_set hviol hlook hc]
        left
        set st' : CState × Bool :=
          (⟨st.1.badCorners,
            setScale st.1.cornerScales idx (scaleOf st.1.cornerScales idx * (1 / 2))⟩,
            true) with hst'
        have hnn' : scalesNonneg st'.1.cornerScales := by
          refine scalesNonneg_setScale hnn ?_ idx
          have := scaleOf_nonneg hnn idx
          linarith
        have hval : scaleOf st'.1.cornerScales idx ≤ s0 / 2 := by
          rw [hst']
          dsimp only
          rw [scaleOf_setScale_same]
          linarith
        have hrest := foldl_drcStep_stateLe isFinal violated idMap tl st'
        exact le_trans (hrest.2.2 hnn' idx) hval
    · have hstep := drcStep_stateLe isFinal violated idMap st a
      rcases ih (drcStep isFinal violated idMap st a) idx s0 (hstep.1 hnn)
        (le_trans (hstep.2.2 hnn idx) hle) ⟨idv, hmem', hviol, hlook⟩ with h | h
      · exact Or.inl h
      · exact Or.inr h

theorem processCtx_implicated (isFinal : Bool) (violated : List PrimId)
    (ctx : PathCtx) (idx : ℕ) (hnn : scalesNonneg ctx.cornerScales)
    (hex : ∃ idv, idv ∈ ctx.createdIds ∧ idv ∈ violated ∧
      lookupCorner ctx.idToCorner idv = some idx) :
    scaleOf (processCtx isFinal violated ctx).1.cornerScales idx ≤
      scaleOf ctx.cornerScales idx / 2
    ∨ (processCtx isFinal violated ctx).1.badCorners idx = true := by
  unfold processCtx
  dsimp only
  exact foldl_drcStep_implicated isFinal violated ctx.idToCorner
    ctx.createdIds (⟨ctx.badCorners, ctx.cornerScales⟩, false) idx
    (scaleOf ctx.cornerScales idx) hnn le_rfl hex

/-- Evolution order on path contexts (corner-state part only). -/
def ctxLe (c1 c2 : PathCtx) : Prop :=
  (scalesNonneg c1.cornerScales → scalesNonneg c2.cornerScales)
  ∧ (∀ k, c1.badCorners k = true → c2.badCorners k = true)
  ∧ (scalesNonneg c1.cornerScales →
      ∀ k, scaleOf c2.cornerScales k ≤ scaleOf c1.cornerScales k)

theorem ctxLe_refl (c : PathCtx) : ctxLe c c :=
  ⟨id, fun _ h => h, fun _ _ => le_rfl⟩

theorem ctxLe_trans {c1 c2 c3 : PathCtx} (h12 : ctxLe c1 c2)
    (h23 : ctxLe c2 c3) : ctxLe c1 c3 := by
  refine ⟨fun h => h23.1 (h12.1 h), fun k hk => h23.2.1 k (h12.2.1 k hk),
    fun h k => ?_⟩
  exact le_trans (h23.2.2 (h12.1 h) k) (h12.2.2 h k)

theorem ctxLe_of_fields {c1 c2 : PathCtx} (hb : c1.badCorners = c2.badCorners)
    (hs : c1.cornerScales = c2.cornerScales) : ctxLe c1 c2 := by
  refine ⟨?_, ?_, ?_⟩
  · rw [hs]
    exact id
  · rw [hb]
    exact fun k hk => hk
  · rw [hs]
    exact fun _ k => le_rfl

theorem ctxLe_processCtx (isFinal : Bool) (violated : List PrimId)
    (ctx : PathCtx) : ctxLe ctx (processCtx isFinal violated ctx).1 := by
  have h := foldl_drcStep_stateLe isFinal violated ctx.idToCorner
    ctx.createdIds (⟨ctx.badCorners, ctx.cornerScales⟩, false)
  unfold processCtx
  dsimp only
  exact ⟨h.1, h.2.1, h.2.2⟩

theorem forall2_map_self {α : Type} {R : α → α → Prop} (f : α → α) :
    ∀ l : List α, (∀ a ∈ l, R a (f a)) → List.Forall₂ R l (l.map f) := by
  intro l
  induction l with
  | nil => intro h; exact List.Forall₂.nil
  | cons a tl ih =>
    intro h
    exact List.Forall₂.cons (h a (by simp))
      (ih (fun b hb => h b (by simp [hb])))

theorem forall2_ctxLe_trans :
    ∀ {l1 l2 l3 : List PathCtx}, List.Forall₂ ctxLe l1 l2 →
      List.Forall₂ ctxLe l2 l3 → List.Forall₂ ctxLe l1 l3 := by
  intro l1 l2 l3 h12
  induction h12 generalizing l3 with
  | nil =>
    intro h23
    cases h23
    exact List.Forall₂.nil
  | cons h hrest ih =>
    intro h23
    cases h23 with
    | cons h' hrest' => exact List.Forall₂.cons (ctxLe_trans h h') (ih hrest')

theorem drcLoopAux_ctxLe (oracle : ℕ → List PrimId)
    (reEmit : ℕ → PathCtx → List PrimId × List (PrimId × ℕ)) (maxR : ℕ) :
    ∀ fuel attempt ctxs,
      List.Forall₂ ctxLe ctxs (drcLoopAux oracle reEmit maxR fuel attempt ctxs).1 := by
  intro fuel
  induction fuel with
  | zero =>
    intro a ctxs
    exact List.forall₂_same.mpr (fun c _ => ctxLe_refl c)
  | succ n ih =>
    intro a ctxs
    rw [drcLoopAux]
    dsimp only
    by_cases hv : oracle a = []
    · rw [if_pos hv]
      exact List.forall₂_same.mpr (fun c _ => ctxLe_refl c)
    · rw [if_neg hv]
      by_cases hall : ∀ r ∈ ctxs.map (processCtx
          (if a = maxR then true else false) (oracle a)), r.2 = false
      · rw [if_pos hall]
        dsimp only
        rw [List.map_map]
        exact forall2_map_self _ ctxs (fun c _ => ctxLe_processCtx _ _ c)
      · rw [if_neg hall]
        dsimp only
        rw [List.map_map]
        refine forall2_ctxLe_trans
          (forall2_map_self _ ctxs (fun c _ => ?_)) (ih (a + 1) _)
        simp only [Function.comp_apply]
        by_cases hflag : (processCtx
            (if a = maxR then true else false) (oracle a) c).2 = true
        · rw [if_pos hflag]
          exact ctxLe_trans (ctxLe_processCtx _ _ c) (ctxLe_of_fields rfl rfl)
        · rw [if_neg hflag]
          exact ctxLe_processCtx _ _ c

/-- C2 amended: across the DRC feedback loop a corner's radius scale never
increases and the forced-straight set never shrinks (second conjunct,
index-wise along the context list); and on each checking result, every
corner owning a violating primitive identifier either ends the cycle with
its scale at most HALF its previous value (it is halved once per violating
primitive id that maps to it — a corner whose line and arc are both
implicated is halved twice), or is added to the forced-straight set (first
conjunct). -/
theorem corner_scale_never_increases :
    (∀ (isFinal : Bool) (violated : List PrimId) (ctx : PathCtx) (idx : ℕ),
      scalesNonneg ctx.cornerScales →
      (∃ idv, idv ∈ ctx.createdIds ∧ idv ∈ violated ∧
        lookupCorner ctx.idToCorner idv = some idx) →
      scaleOf (processCtx isFinal violated ctx).1.cornerScales idx ≤
        scaleOf ctx.cornerScales idx / 2
      ∨ (processCtx isFinal violated ctx).1.badCorners idx = true)
    ∧ ∀ (n : ℕ) (oracle : ℕ → List PrimId)
        (reEmit : ℕ → PathCtx → List PrimId × List (PrimId × ℕ))
        (ctxs : List PathCtx),
        List.Forall₂ ctxLe ctxs (drcLoop n oracle reEmit ctxs).1 :=
  ⟨processCtx_implicated, fun n oracle reEmit ctxs =>
    drcLoopAux_ctxLe oracle reEmit (effectiveRetryCount n)
      (effectiveRetryCount n + 1) 0 ctxs⟩

/-- Witness for C2 (amended) at a concrete context: one violating id mapped
to corner 3, scale map initially empty. -/
theorem corner_scale_never_increases_witness :
    scaleOf (processCtx false [1]
        ⟨[1], [(1, 3)], fun _ => false, fun _ => none⟩).1.cornerScales 3 ≤
      scaleOf (fun _ => none) 3 / 2
    ∨ (processCtx false [1]
        ⟨[1], [(1, 3)], fun _ => false, fun _ => none⟩).1.badCorners 3 = true := by
  refine corner_scale_never_increases.1 false [1]
    ⟨[1], [(1, 3)], fun _ => false, fun _ => none⟩ 3 ?_ ?_
  · intro k v hv
    exact absurd hv (by simp)
  · refine ⟨1, by simp, by simp, ?_⟩
    norm_num [lookupCorner]

/-- C2 counterexample: when BOTH primitives of one corner (its lead-in line
and its arc, ids 1 and 2, both mapped to corner 5) are implicated in one
checking result, the corner's scale is halved twice in that single cycle:
it ends at 1/4, not at "exactly half" of its previous value 1, and the
corner is not forced straight. -/
theorem corner_double_halving :
    (processCtx false [1, 2]
        ⟨[1, 2], [(1, 5), (2, 5)], fun _ => false, fun _ => none⟩).1.cornerScales 5 =
      some (1 / 4)
    ∧ ((1 : ℚ) / 4 ≠ 1 * (1 / 2))
    ∧ (processCtx false [1, 2]
        ⟨[1, 2], [(1, 5), (2, 5)], fun _ => false, fun _ => none⟩).1.badCorners 5 =
      false := by
  refine ⟨?_, by norm_num, ?_⟩ <;>
    norm_num [processCtx, drcStep, lookupCorner, scaleOf, setScale, addBad,
      List.foldl]

theorem drcLoopAux_cycles_le (oracle : ℕ → List PrimId)
    (reEmit : ℕ → PathCtx → List PrimId × List (PrimId × ℕ)) (maxR : ℕ) :
    ∀ fuel attempt ctxs,
      (drcLoopAux oracle reEmit maxR fuel attempt ctxs).2 ≤ fuel := by
  intro fuel
  induction fuel with
  | zero => intro a ctxs; simp [drcLoopAux]
  | succ n ih =>
    intro a ctxs
    rw [drcLoopAux]
    dsimp only
    by_cases hv : oracle a = []
    · rw [if_pos hv]
      omega
    · rw [if_neg hv]
      by_cases hall : ∀ r ∈ ctxs.map (processCtx
          (if a = maxR then true else false) (oracle a)), r.2 = false
      · rw [if_pos hall]
        omega
      · rw [if_neg hall]
        dsimp only
        exact Nat.succ_le_succ (ih (a + 1) _)

theorem foldl_drcStep_no_hit (isFinal : Bool) (violated : List PrimId)
    (idMap : List (PrimId × ℕ)) :
    ∀ (l : List PrimId) (st : CState × Bool),
      (∀ idv ∈ l, idv ∈ violated → lookupCorner idMap idv = none) →
      l.foldl (drcStep isFinal violated idMap) st = st := by
  intro l
  induction l with
  | nil => intro st _; rfl
  | cons a tl ih =>
    intro st h
    rw [List.foldl_cons]
    have hstep : drcStep isFinal violated idMap st a = st := by
      unfold drcStep
      split
      · rw [h a (by simp) (by assumption)]
      · rfl
    rw [hstep]
    exact ih st (fun idv hm hv => h idv (by simp [hm]) hv)

theorem processCtx_no_hit {isFinal : Bool} {violated : List PrimId}
    {ctx : PathCtx}
    (h : ∀ idv ∈ ctx.createdIds, idv ∈ violated →
      lookupCorner ctx.idToCorner idv = none) :
    processCtx isFinal violated ctx = (ctx, false) := by
  unfold processCtx
  rw [foldl_drcStep_no_hit isFinal violated ctx.idToCorner ctx.createdIds _ h]

/-- C3 amended: the DRC loop performs at most `maxDrcRetries + 1` check
cycles, where `maxDrcRetries = drcRetryCount || 4` (so a configured retry
count of 0 yields up to FIVE cycles, not one); it stops after a single
cycle when the first violation set is empty, and likewise when no violating
identifier maps to a corner of any context. -/
theorem drc_cycle_bound (n : ℕ) (oracle : ℕ → List PrimId)
    (reEmit : ℕ → PathCtx → List PrimId × List (PrimId × ℕ))
    (ctxs : List PathCtx) :
    (drcLoop n oracle reEmit ctxs).2 ≤ effectiveRetryCount n + 1
    ∧ (oracle 0 = [] → drcLoop n oracle reEmit ctxs = (ctxs, 1))
    ∧ ((∀ ctx ∈ ctxs, ∀ idv ∈ ctx.createdIds, idv ∈ oracle 0 →
        lookupCorner ctx.idToCorner idv = none) →
      (drcLoop n oracle reEmit ctxs).2 = 1) := by
  refine ⟨drcLoopAux_cycles_le oracle reEmit (effectiveRetryCount n)
    (effectiveRetryCount n + 1) 0 ctxs, ?_, ?_⟩
  · intro h
    unfold drcLoop
    rw [drcLoopAux, if_pos h]
  · intro h
    unfold drcLoop
    rw [drcLoopAux]
    by_cases hv : oracle 0 = []
    · rw [if_pos hv]
    · rw [if_neg hv]
      dsimp only
      have hall : ∀ r ∈ ctxs.map (processCtx
          (if 0 = effectiveRetryCount n then true else false) (oracle 0)),
          r.2 = false := by
        intro r hr
        rcases List.mem_map.mp hr with ⟨c, hc, rfl⟩
        rw [processCtx_no_hit (h c hc)]
      rw [if_pos hall]

/-- Witness for C3 (amended) at a concrete empty-violation oracle. -/
theorem drc_cycle_bound_witness :
    drcLoop 2 (fun _ => []) (fun _ _ => ([], [])) [] = ([], 1)
    ∧ (drcLoop 2 (fun _ => []) (fun _ _ => ([], [])) []).2 ≤
      effectiveRetryCount 2 + 1 :=
  ⟨(drc_cycle_bound 2 (fun _ => []) (fun _ _ => ([], [])) []).2.1 rfl,
    (drc_cycle_bound 2 (fun _ => []) (fun _ _ => ([], [])) []).1⟩

/-- C3 counterexample: with a configured `drcRetryCount` of 0 the JavaScript
defaulting `drcRetryCount || 4` uses 4 retries, and a persistently violating
oracle drives the loop through 5 check cycles — not the claimed at most
`0 + 1 = 1`. -/
theorem drc_retry_zero_five_cycles :
    (drcLoop 0 (fun _ => [1]) (fun _ _ => ([1], [(1, 5)]))
      [⟨[1], [(1, 5)], fun _ => false, fun _ => none⟩]).2 = 5
    ∧ ¬(drcLoop 0 (fun _ => [1]) (fun _ _ => ([1], [(1, 5)]))
      [⟨[1], [(1, 5)], fun _ => false, fun _ => none⟩]).2 ≤ 0 + 1 := by
  have h : (drcLoop 0 (fun _ => [1]) (fun _ _ => ([1], [(1, 5)]))
      [⟨[1], [(1, 5)], fun _ => false, fun _ => none⟩]).2 = 5 := by
    norm_num [drcLoop, drcLoopAux, effectiveRetryCount, processCtx, drcStep,
      lookupCorner, scaleOf, setScale, addBad, List.foldl, List.map]
  exact ⟨h, by rw [h]; norm_num⟩

/-- C8: a thrown violation check or a non-array response parses to the empty
identifier set, and with that empty set the feedback loop exits in the same
cycle without touching any context (fail-open). -/
theorem oracle_failure_fail_open (enableDRC ignoreCopper : Bool) (n : ℕ)
    (reEmit : ℕ → PathCtx → List PrimId × List (PrimId × ℕ))
    (ctxs : List PathCtx) :
    runDrcCheckAndParse enableDRC ignoreCopper DrcRaw.throws = []
    ∧ runDrcCheckAndParse enableDRC ignoreCopper DrcRaw.nonArray = []
    ∧ drcLoop n (fun _ => runDrcCheckAndParse enableDRC ignoreCopper DrcRaw.throws)
        reEmit ctxs = (ctxs, 1)
    ∧ drcLoop n (fun _ => runDrcCheckAndParse enableDRC ignoreCopper DrcRaw.nonArray)
        reEmit ctxs = (ctxs, 1) := by
  have h1 : runDrcCheckAndParse enableDRC ignoreCopper DrcRaw.throws = [] := by
    cases enableDRC <;> rfl
  have h2 : runDrcCheckAndParse enableDRC ignoreCopper DrcRaw.nonArray = [] := by
    cases enableDRC <;> rfl
  refine ⟨h1, h2, ?_, ?_⟩
  · unfold drcLoop
    rw [drcLoopAux, if_pos h1]
  · unfold drcLoop
    rw [drcLoopAux, if_pos h2]

/-- Witness for C9 (amended): the path extracted from a concrete 3-segment
chain has at least 3 points. -/
theorem extractor_min_points_witness :
    3 ≤ ([⟨0, 0⟩, ⟨10, 0⟩, ⟨20, 0⟩, ⟨20, 10⟩] : List Point).length := by
  have hmem : (([⟨0, 0⟩, ⟨10, 0⟩, ⟨20, 0⟩, ⟨20, 10⟩] : List Point),
      [(⟨⟨0, 0⟩, ⟨10, 0⟩, 1, 1⟩ : Seg), ⟨⟨10, 0⟩, ⟨20, 0⟩, 1, 2⟩,
        ⟨⟨20, 0⟩, ⟨20, 10⟩, 1, 3⟩]) ∈
      extractPaths [⟨⟨0, 0⟩, ⟨10, 0⟩, 1, 1⟩, ⟨⟨10, 0⟩, ⟨20, 0⟩, 1, 2⟩,
        ⟨⟨20, 0⟩, ⟨20, 10⟩, 1, 3⟩] := by
    norm_num [extractPaths, extractStep, growPath, tryExtend, findUnused,
      connAt, pkey, List.flatMap, List.getLastD, List.headD, List.foldl,
      round_zero, round_ofNat, Prod.ext_iff]
  exact extractor_self_loop_and_min_points.2 _ _ hmem
